import Mathlib

/-!
Verification of the slide-generation pipeline (`generator.mjs`).

The JavaScript source is shallowly embedded: strings are `List Char` or
`String`, JSON values are an inductive `JValue`, fallible operations return
`Except String _`, and the retry loop is modelled with explicit fuel equal to
the loop bound. All definitions come first; the theorems settling the claims
follow.
-/

namespace Slidegen

/-! ## Configuration constants (lines 57-66 of the source) -/

def EXPECTED_SLIDES_COUNT : Nat := 10

def MAX_IMAGE_RETRIES : Nat := 3

def INITIAL_IMAGE_RETRY_DELAY_MS : Nat := 1000

/-! ## Decimal rendering of a slide number.

Models the JavaScript template literal interpolation of a nonnegative integer
(`slide_${slideNumber}_image.png`): the usual base-10 digit string. -/

def natDigitsAux (n : Nat) (acc : List Char) : List Char :=
  let d := Nat.digitChar (n % 10)
  if h : n / 10 = 0 then d :: acc
  else natDigitsAux (n / 10) (d :: acc)
termination_by n
decreasing_by
  exact Nat.div_lt_self (Nat.pos_of_ne_zero (fun hn => h (by simp [hn]))) (by decide)

def natToChars (n : Nat) : List Char :=
  natDigitsAux n []

/-- `slide_<n>_image.png`, the per-slide output filename (line 178). -/
def imagePath (n : Nat) : List Char :=
  "slide_".toList ++ natToChars n ++ "_image.png".toList

/-- Value of a decimal digit character, inverse of `Nat.digitChar` below 10. -/
def digitVal (c : Char) : Nat :=
  if c = '0' then 0 else if c = '1' then 1 else if c = '2' then 2
  else if c = '3' then 3 else if c = '4' then 4 else if c = '5' then 5
  else if c = '6' then 6 else if c = '7' then 7 else if c = '8' then 8 else 9

def digitsVal (l : List Char) : Nat :=
  l.foldl (fun a c => a * 10 + digitVal c) 0

/-! ## Retrying image generator (`generateImageWithRetry`, lines 176-214).

The external image call is abstracted as `call : Nat → Except String String`,
giving for each 0-based attempt index either the base64 payload or the error
message thrown (a missing `b64_json` payload raises an error inside the same
`try`, so it is just another failing call). The trace records the number of
attempts made, the backoff waits performed in order, the returned outcome and
every file written. -/

structure ImageOutcome where
  success : Bool
  path : Option (List Char)
  error : Option String

structure RetryTrace where
  attempts : Nat
  delays : List Nat
  outcome : ImageOutcome
  filesWritten : List (List Char)

/-- One step of the `while (retries <= MAX_IMAGE_RETRIES)` loop. `retries` is
the current value of the mutable counter; the fuel is `MAX+1 - retries`, the
number of remaining iterations the guard can admit (the loop body always
returns before fuel runs out, so the fuel-0 branch models the unreachable
fall-through of the `while`). -/
def retryLoop (call : Nat → Except String String) (slideNumber : Nat) :
    Nat → Nat → RetryTrace
  | _retries, 0 => ⟨0, [], ⟨false, none, none⟩, []⟩
  | retries, fuel + 1 =>
    match call retries with
    | .ok _b64 =>
      ⟨1, [], ⟨true, some (imagePath slideNumber), none⟩, [imagePath slideNumber]⟩
    | .error msg =>
      if retries + 1 > MAX_IMAGE_RETRIES then
        ⟨1, [], ⟨false, none, some msg⟩, []⟩
      else
        let wait := INITIAL_IMAGE_RETRY_DELAY_MS * 2 ^ (retries + 1 - 1)
        let rest := retryLoop call slideNumber (retries + 1) fuel
        ⟨rest.attempts + 1, wait :: rest.delays, rest.outcome, rest.filesWritten⟩

def generateImageWithRetry (call : Nat → Except String String)
    (slideNumber : Nat) : RetryTrace :=
  retryLoop call slideNumber 0 (MAX_IMAGE_RETRIES + 1)

/-! ## JSON / JavaScript value model.

`JValue` models a value produced by `JSON.parse` (no `undefined`). Property
access on `null` throws a `TypeError`; on a non-object non-null value it
yields `undefined` (here `none`); on an object it is a key lookup. -/

inductive JValue where
  | null : JValue
  | bool : Bool → JValue
  | num : Int → JValue
  | str : String → JValue
  | arr : List JValue → JValue
  | obj : List (String × JValue) → JValue

/-- JavaScript truthiness of a value. -/
def jsTruthy : JValue → Bool
  | .null => false
  | .bool b => b
  | .num n => n != 0
  | .str s => !s.isEmpty
  | .arr _ => true
  | .obj _ => true

/-- Truthiness of a possibly-`undefined` value (`undefined` is falsy). -/
def jsTruthyOpt : Option JValue → Bool
  | none => false
  | some v => jsTruthy v

def jlookup (key : String) : List (String × JValue) → Option JValue
  | [] => none
  | (k, v) :: rest => if k = key then some v else jlookup key rest

def tyErrMsg : String := "TypeError: Cannot read properties of null"

/-- JavaScript property access `v[key]`, which throws on `null`. -/
def getProp (v : JValue) (key : String) : Except String (Option JValue) :=
  match v with
  | .null => .error tyErrMsg
  | .obj fields => .ok (jlookup key fields)
  | _ => .ok none

/-- JavaScript `a || b` where `a` may be `undefined`. -/
def jsOr (a : Option JValue) (b : JValue) : JValue :=
  match a with
  | some v => if jsTruthy v then v else b
  | none => b

/-! ## Checkpoint loading (`main`, lines 223-233).

`slides = slides.map((s, i) => ({...s, slideNumber: s.slideNumber || i + 1,
isValid: !!(s.title && s.text && s.imagedescription)}))` over the JSON value
read from `slides.json`. The whole block sits in a `try` whose `catch` exits
with code 1, so a thrown `TypeError` (element `null`) is a load failure. -/

def keySlideNumber : String := "slideNumber"

def keyTitle : String := "title"

def keyText : String := "text"

def keyImagedescription : String := "imagedescription"

/-- A normalized record from the checkpoint: the spread source, the resulting
`slideNumber` value and the recomputed `isValid` flag. -/
structure LoadedSlide where
  source : JValue
  slideNumber : JValue
  isValid : Bool

def normalizeStored (i : Nat) (s : JValue) : Except String LoadedSlide := do
  let sn ← getProp s keySlideNumber
  let t ← getProp s keyTitle
  let x ← getProp s keyText
  let d ← getProp s keyImagedescription
  .ok { source := s
        slideNumber := jsOr sn (.num (Int.ofNat (i + 1)))
        isValid := jsTruthyOpt t && jsTruthyOpt x && jsTruthyOpt d }

def normalizeAll : Nat → List JValue → Except String (List LoadedSlide)
  | _, [] => .ok []
  | i, s :: rest =>
    match normalizeStored i s with
    | .error e => .error e
    | .ok r =>
      match normalizeAll (i + 1) rest with
      | .error e => .error e
      | .ok rs => .ok (r :: rs)

def emptyStoreMsg : String := "slides.json is invalid/empty."

def jsonParseErrMsg : String := "SyntaxError: malformed JSON"

/-- `JSON.parse` + `if (!Array.isArray(slides) || !slides.length) throw` +
normalization map. `none` models text that does not parse as JSON. -/
def loadCheckpoint (content : Option JValue) : Except String (List LoadedSlide) :=
  match content with
  | none => .error jsonParseErrMsg
  | some v =>
    match v with
    | .arr (x :: xs) => normalizeAll 0 (x :: xs)
    | _ => .error emptyStoreMsg

/-- Modelled from the spec: a "slide-shaped record" is a JSON object (record),
as opposed to a scalar/array element. Used only to compare the code's actual
load check against the spec's words. -/
def isSlideShaped : JValue → Bool
  | .obj _ => true
  | _ => false

/-! ## Freshly parsed slides (`generateSlidesFromResearch`, lines 142-162).

`xml2js` is called with `explicitArray: false, trim: true` and lowercasing
tag-name processors, so a `<slide>` element becomes a record whose keys are
lowercased tag names and whose leaf values are whitespace-trimmed strings
(`none` models an absent child tag). -/

structure RawSlide where
  title : Option String
  text : Option String
  imagedescription : Option String
  slidenumber : Option String

/-- Whitespace trimming on both ends, modelling JavaScript / xml2js `trim`. -/
def trimChars (l : List Char) : List Char :=
  (((l.dropWhile Char.isWhitespace).reverse).dropWhile Char.isWhitespace).reverse

def jsTrim (s : String) : String :=
  (trimChars s.toList).asString

/-- The `trim: true` option of the xml2js parse. -/
def xmlTrimSlide (s : RawSlide) : RawSlide :=
  { title := s.title.map jsTrim
    text := s.text.map jsTrim
    imagedescription := s.imagedescription.map jsTrim
    slidenumber := s.slidenumber.map jsTrim }

/-- JavaScript truthiness of a possibly-absent string field. -/
def truthyStr : Option String → Bool
  | none => false
  | some s => !s.isEmpty

structure SlideRecord where
  title : Option String
  text : Option String
  imagedescription : Option String
  slidenumber : Option String
  slideNumber : Nat
  isValid : Bool

/-- Lines 156-162: `{...slide, slideNumber: index + 1, isValid}` with
`isValid = !!(slide.title && slide.text && slide.imagedescription)`. -/
def mkSlideRecord (i : Nat) (s : RawSlide) : SlideRecord :=
  { title := s.title
    text := s.text
    imagedescription := s.imagedescription
    slidenumber := s.slidenumber
    slideNumber := i + 1
    isValid := truthyStr s.title && truthyStr s.text && truthyStr s.imagedescription }

def mapWithIndex {α β : Type} (f : Nat → α → β) : Nat → List α → List β
  | _, [] => []
  | i, a :: rest => f i a :: mapWithIndex f (i + 1) rest

def buildDeck (parsed : List RawSlide) : List SlideRecord :=
  mapWithIndex mkSlideRecord 0 parsed

/-- The parse pipeline for one run: xml2js trimming followed by the record
construction of lines 156-162. -/
def generateSlidesDeck (raw : List RawSlide) : List SlideRecord :=
  buildDeck (raw.map xmlTrimSlide)

/-- Modelled from the spec's words for comparison: "title, text, and
imageDescription are all non-empty after trimming whitespace (a
whitespace-only field counts as empty)". -/
def specValidTrim (title text imageDescription : Option String) : Bool :=
  truthyStr (title.map jsTrim) && truthyStr (text.map jsTrim) &&
    truthyStr (imageDescription.map jsTrim)

/-! ## Ampersand repair (line 136).

`xmlContent.replace(/&(?!amp;|lt;|gt;|quot;|apos;|#[0-9]+;|#x[0-9a-fA-F]+;)/g,
'&amp;')`: every `&` whose tail does not match the lookahead is replaced by
`&amp;` (the match is the single `&` character; the lookahead is zero-width,
and scanning resumes after the replaced character). -/

def entAmp : List Char := ['a', 'm', 'p', ';']

def entLt : List Char := ['l', 't', ';']

def entGt : List Char := ['g', 't', ';']

def entQuot : List Char := ['q', 'u', 'o', 't', ';']

def entApos : List Char := ['a', 'p', 'o', 's', ';']

def isHexDigitCh (c : Char) : Bool :=
  c.isDigit || ('a' ≤ c && c ≤ 'f') || ('A' ≤ c && c ≤ 'F')

/-- After at least one decimal digit: more digits then `;`. -/
def digitTail : List Char → Bool
  | [] => false
  | c :: rest => if c = ';' then true else c.isDigit && digitTail rest

/-- `[0-9]+;` -/
def digSeq : List Char → Bool
  | [] => false
  | c :: rest => c.isDigit && digitTail rest

def hexTail : List Char → Bool
  | [] => false
  | c :: rest => if c = ';' then true else isHexDigitCh c && hexTail rest

/-- `[0-9a-fA-F]+;` -/
def hexSeq : List Char → Bool
  | [] => false
  | c :: rest => isHexDigitCh c && hexTail rest

/-- After `#`: either `x` then a hex reference, or a decimal reference. -/
def numOrHexRef : List Char → Bool
  | [] => false
  | c :: rest => if c = 'x' then hexSeq rest else digSeq (c :: rest)

/-- `#[0-9]+;|#x[0-9a-fA-F]+;` -/
def refTail : List Char → Bool
  | [] => false
  | c :: rest => if c = '#' then numOrHexRef rest else false

/-- The regex lookahead: does the text after a `&` begin a recognized entity
or character reference? -/
def recognizedEntityTail (l : List Char) : Bool :=
  entAmp.isPrefixOf l || entLt.isPrefixOf l || entGt.isPrefixOf l ||
    entQuot.isPrefixOf l || entApos.isPrefixOf l || refTail l

/-- The global replace of line 136. -/
def repairAmps : List Char → List Char
  | [] => []
  | c :: rest =>
    if c = '&' then
      if recognizedEntityTail rest then '&' :: repairAmps rest
      else '&' :: 'a' :: 'm' :: 'p' :: ';' :: repairAmps rest
    else c :: repairAmps rest

/-- Every `&` in the string begins a recognized entity or character
reference. -/
def allAmpsRecognized : List Char → Bool
  | [] => true
  | c :: rest =>
    (if c = '&' then recognizedEntityTail rest else true) && allAmpsRecognized rest

/-! ## XML fragment extraction (lines 114-128).

`indexOf`/`lastIndexOf` by literal substring search, then `substring`
(which clamps both arguments to the string length and swaps them when
reversed, per JavaScript semantics). -/

def firstIndexOfSub (pat : List Char) : List Char → Option Nat
  | [] => if pat.isPrefixOf ([] : List Char) then some 0 else none
  | c :: t =>
    if pat.isPrefixOf (c :: t) then some 0
    else (firstIndexOfSub pat t).map (· + 1)

def lastIndexOfSub (pat : List Char) : List Char → Option Nat
  | [] => if pat.isPrefixOf ([] : List Char) then some 0 else none
  | c :: t =>
    match lastIndexOfSub pat t with
    | some i => some (i + 1)
    | none => if pat.isPrefixOf (c :: t) then some 0 else none

/-- JavaScript `String.prototype.substring`: clamp both arguments to the
string length, swap them when reversed, return that half-open slice. -/
def substringJS (s : List Char) (a b : Nat) : List Char :=
  (s.take (max (min a s.length) (min b s.length))).drop
    (min (min a s.length) (min b s.length))

def slidesOpenTag : List Char := "<slides>".toList

def slidesCloseTag : List Char := "</slides>".toList

def noXmlMsg : String := "No XML structure found in GPT response."

/-- Lines 114-128: locate `<slides>`/`</slides>`; if either is missing, fall
back to first `<` .. last `>`; if that also fails, throw. -/
def extractXml (s : List Char) : Except String (List Char) :=
  match firstIndexOfSub slidesOpenTag s, lastIndexOfSub slidesCloseTag s with
  | some i, some j => .ok (substringJS s i (j + slidesCloseTag.length))
  | some _, none =>
    match firstIndexOfSub ['<'] s, lastIndexOfSub ['>'] s with
    | some a, some b => .ok (substringJS s a (b + 1))
    | _, _ => .error noXmlMsg
  | none, _ =>
    match firstIndexOfSub ['<'] s, lastIndexOfSub ['>'] s with
    | some a, some b => .ok (substringJS s a (b + 1))
    | _, _ => .error noXmlMsg

/-! ## Batch orchestration (`main`, lines 249-278). -/

def validSlidesOf {α : Type} (valid : α → Bool) (deck : List α) : List α :=
  deck.filter valid

/-- One image-generation task per valid slide, in deck order; outcome `i` is a
function of valid slide `i` alone (tasks share no state). -/
def dispatchBatch {α : Type} (valid : α → Bool) (gen : α → ImageOutcome)
    (deck : List α) : List ImageOutcome :=
  (validSlidesOf valid deck).map gen

structure Summary where
  totalValid : Nat
  succeeded : Nat
  failed : Nat

/-- Lines 270-278: `successfulImages = results.filter(r => r?.success).length`
and the printed totals. -/
def summarize {α : Type} (valid : α → Bool) (gen : α → ImageOutcome)
    (deck : List α) : Summary :=
  let validSlides := validSlidesOf valid deck
  let results := dispatchBatch valid gen deck
  let k := (results.filter (fun r => r.success)).length
  ⟨validSlides.length, k, validSlides.length - k⟩

/-- Lines 249-279: filter to valid slides; if none, exit 0 with no image work;
otherwise dispatch all tasks, await them, print the summary, and finish
(exit 0 regardless of per-slide outcomes). Returns (exit code, outcomes). -/
def runImagePhase {α : Type} (valid : α → Bool) (gen : α → ImageOutcome)
    (slides : List α) : Nat × List ImageOutcome :=
  if (validSlidesOf valid slides).isEmpty then (0, [])
  else (0, dispatchBatch valid gen slides)

/-- The run's environment: which files exist, the parsed checkpoint content,
the text-generation result, and the per-slide image-generation behaviour. -/
structure Env where
  slidesJsonExists : Bool
  slidesJsonContent : Option JValue
  researchExists : Bool
  textGen : Except String (List SlideRecord)
  genLoaded : LoadedSlide → ImageOutcome
  genParsed : SlideRecord → ImageOutcome

/-- `main` (lines 217-285) as a function from the environment to the process
exit code and the list of image outcomes produced. -/
def mainRun (env : Env) : Nat × List ImageOutcome :=
  if env.slidesJsonExists then
    match loadCheckpoint env.slidesJsonContent with
    | .error _ => (1, [])
    | .ok slides => runImagePhase (fun s => s.isValid) env.genLoaded slides
  else if env.researchExists then
    match env.textGen with
    | .error _ => (1, [])
    | .ok slides =>
      if slides.isEmpty then (1, [])
      else runImagePhase (fun s => s.isValid) env.genParsed slides
  else (1, [])

end Slidegen

namespace Slidegen

/-! ## Helper lemmas -/

theorem digitVal_digitChar {d : Nat} (h : d < 10) :
    digitVal (Nat.digitChar d) = d := by
  interval_cases d <;> decide

theorem digitsVal_natDigitsAux (n : Nat) :
    ∀ acc, List.foldl (fun a c => a * 10 + digitVal c) 0 (natDigitsAux n acc)
      = List.foldl (fun a c => a * 10 + digitVal c) n acc := by
  induction n using Nat.strong_induction_on with
  | _ n ih =>
    intro acc
    rw [natDigitsAux]
    by_cases h : n / 10 = 0
    · simp only [h, dite_true]
      have hm : n % 10 = n := by omega
      have hn10 : n < 10 := by omega
      simp [List.foldl, hm, digitVal_digitChar hn10]
    · simp only [h, dite_false]
      have hlt : n / 10 < n :=
        Nat.div_lt_self (Nat.pos_of_ne_zero (fun hn => h (by simp [hn]))) (by decide)
      rw [ih (n / 10) hlt]
      simp only [List.foldl]
      have : n / 10 * 10 + digitVal (Nat.digitChar (n % 10)) = n := by
        rw [digitVal_digitChar (show n % 10 < 10 by omega)]; omega
      rw [this]

theorem digitsVal_natToChars (n : Nat) : digitsVal (natToChars n) = n := by
  simpa [digitsVal, natToChars] using digitsVal_natDigitsAux n []

theorem natToChars_injective : Function.Injective natToChars := by
  intro m n h
  have hm := digitsVal_natToChars m
  rw [h, digitsVal_natToChars] at hm
  exact hm.symm

theorem imagePath_injective : Function.Injective imagePath := by
  intro m n h
  unfold imagePath at h
  exact natToChars_injective (List.append_cancel_left (List.append_cancel_right h))

theorem isPrefixOf_iff_exists_append (p l : List Char) :
    p.isPrefixOf l = true ↔ ∃ t, l = p ++ t := by
  induction p generalizing l with
  | nil =>
    simp [List.isPrefixOf]
  | cons a p ih =>
    cases l with
    | nil =>
      constructor
      · intro h; simp [List.isPrefixOf] at h
      · rintro ⟨t, ht⟩; simp at ht
    | cons b t =>
      constructor
      · intro h
        simp only [List.isPrefixOf, Bool.and_eq_true, beq_iff_eq] at h
        obtain ⟨rfl, h2⟩ := h
        obtain ⟨u, rfl⟩ := (ih t).mp h2
        exact ⟨u, rfl⟩
      · rintro ⟨u, hu⟩
        rw [List.cons_append] at hu
        injection hu with h1 h2
        subst h1; subst h2
        simp [List.isPrefixOf, (ih (p ++ u)).mpr ⟨u, rfl⟩]

theorem repairAmps_append_of_no_amp (p t : List Char)
    (hp : ∀ c ∈ p, c ≠ '&') : repairAmps (p ++ t) = p ++ repairAmps t := by
  induction p with
  | nil => rfl
  | cons c p ih =>
    have hc : c ≠ '&' := hp c (by simp)
    have hp' : ∀ x ∈ p, x ≠ '&' := fun x hx => hp x (by simp [hx])
    simp [repairAmps, hc, ih hp']

theorem digitTail_repairAmps {l : List Char} (h : digitTail l = true) :
    digitTail (repairAmps l) = true := by
  induction l with
  | nil => simp [digitTail] at h
  | cons c rest ih =>
    by_cases hc : c = ';'
    · subst hc
      have h1 : (';' : Char) ≠ '&' := by decide
      simp [repairAmps, h1, digitTail]
    · simp only [digitTail, if_neg hc, Bool.and_eq_true] at h
      obtain ⟨hd, ht⟩ := h
      have hne : c ≠ '&' := by
        intro e; subst e; exact absurd hd (by decide)
      simp [repairAmps, hne, digitTail, hc, hd, ih ht]

theorem hexTail_repairAmps {l : List Char} (h : hexTail l = true) :
    hexTail (repairAmps l) = true := by
  induction l with
  | nil => simp [hexTail] at h
  | cons c rest ih =>
    by_cases hc : c = ';'
    · subst hc
      have h1 : (';' : Char) ≠ '&' := by decide
      simp [repairAmps, h1, hexTail]
    · simp only [hexTail, if_neg hc, Bool.and_eq_true] at h
      obtain ⟨hd, ht⟩ := h
      have hne : c ≠ '&' := by
        intro e; subst e; exact absurd hd (by decide)
      simp [repairAmps, hne, hexTail, hc, hd, ih ht]

theorem digSeq_repairAmps {l : List Char} (h : digSeq l = true) :
    digSeq (repairAmps l) = true := by
  cases l with
  | nil => simp [digSeq] at h
  | cons c rest =>
    simp only [digSeq, Bool.and_eq_true] at h
    obtain ⟨hd, ht⟩ := h
    have hne : c ≠ '&' := by
      intro e; subst e; exact absurd hd (by decide)
    simp [repairAmps, hne, digSeq, hd, digitTail_repairAmps ht]

theorem hexSeq_repairAmps {l : List Char} (h : hexSeq l = true) :
    hexSeq (repairAmps l) = true := by
  cases l with
  | nil => simp [hexSeq] at h
  | cons c rest =>
    simp only [hexSeq, Bool.and_eq_true] at h
    obtain ⟨hd, ht⟩ := h
    have hne : c ≠ '&' := by
      intro e; subst e; exact absurd hd (by decide)
    simp [repairAmps, hne, hexSeq, hd, hexTail_repairAmps ht]

theorem numOrHexRef_repairAmps {l : List Char} (h : numOrHexRef l = true) :
    numOrHexRef (repairAmps l) = true := by
  cases l with
  | nil => simp [numOrHexRef] at h
  | cons c rest =>
    by_cases hx : c = 'x'
    · subst hx
      simp only [numOrHexRef, if_pos rfl] at h
      have hne : ('x' : Char) ≠ '&' := by decide
      simp [repairAmps, hne, numOrHexRef, hexSeq_repairAmps h]
    · simp only [numOrHexRef, if_neg hx] at h
      have hd : c.isDigit = true := by
        have h' := h
        simp only [digSeq, Bool.and_eq_true] at h'
        exact h'.1
      have ht : digitTail rest = true := by
        have h' := h
        simp only [digSeq, Bool.and_eq_true] at h'
        exact h'.2
      have hne : c ≠ '&' := by
        intro e; subst e; exact absurd hd (by decide)
      simp [repairAmps, hne, numOrHexRef, hx, digSeq, hd, digitTail_repairAmps ht]

theorem refTail_repairAmps {l : List Char} (h : refTail l = true) :
    refTail (repairAmps l) = true := by
  cases l with
  | nil => simp [refTail] at h
  | cons c rest =>
    by_cases hh : c = '#'
    · subst hh
      simp only [refTail, if_pos rfl] at h
      have hne : ('#' : Char) ≠ '&' := by decide
      simp [repairAmps, hne, refTail, numOrHexRef_repairAmps h]
    · simp [refTail, if_neg hh] at h

theorem recognizedEntityTail_repairAmps {l : List Char}
    (h : recognizedEntityTail l = true) :
    recognizedEntityTail (repairAmps l) = true := by
  simp only [recognizedEntityTail, Bool.or_eq_true] at h ⊢
  rcases h with ((((h | h) | h) | h) | h) | h
  · obtain ⟨t, rfl⟩ := (isPrefixOf_iff_exists_append entAmp l).mp h
    rw [repairAmps_append_of_no_amp entAmp t (by decide)]
    have hdone : entAmp.isPrefixOf (entAmp ++ repairAmps t) = true :=
      (isPrefixOf_iff_exists_append _ _).mpr ⟨repairAmps t, rfl⟩
    simp [hdone]
  · obtain ⟨t, rfl⟩ := (isPrefixOf_iff_exists_append entLt l).mp h
    rw [repairAmps_append_of_no_amp entLt t (by decide)]
    have hdone : entLt.isPrefixOf (entLt ++ repairAmps t) = true :=
      (isPrefixOf_iff_exists_append _ _).mpr ⟨repairAmps t, rfl⟩
    simp [hdone]
  · obtain ⟨t, rfl⟩ := (isPrefixOf_iff_exists_append entGt l).mp h
    rw [repairAmps_append_of_no_amp entGt t (by decide)]
    have hdone : entGt.isPrefixOf (entGt ++ repairAmps t) = true :=
      (isPrefixOf_iff_exists_append _ _).mpr ⟨repairAmps t, rfl⟩
    simp [hdone]
  · obtain ⟨t, rfl⟩ := (isPrefixOf_iff_exists_append entQuot l).mp h
    rw [repairAmps_append_of_no_amp entQuot t (by decide)]
    have hdone : entQuot.isPrefixOf (entQuot ++ repairAmps t) = true :=
      (isPrefixOf_iff_exists_append _ _).mpr ⟨repairAmps t, rfl⟩
    simp [hdone]
  · obtain ⟨t, rfl⟩ := (isPrefixOf_iff_exists_append entApos l).mp h
    rw [repairAmps_append_of_no_amp entApos t (by decide)]
    have hdone : entApos.isPrefixOf (entApos ++ repairAmps t) = true :=
      (isPrefixOf_iff_exists_append _ _).mpr ⟨repairAmps t, rfl⟩
    simp [hdone]
  · simp [refTail_repairAmps h]

theorem allAmpsRecognized_amp_cons (x : List Char)
    (hx : allAmpsRecognized x = true) :
    allAmpsRecognized ('&' :: 'a' :: 'm' :: 'p' :: ';' :: x) = true := by
  have h1 : recognizedEntityTail ('a' :: 'm' :: 'p' :: ';' :: x) = true := by
    simp [recognizedEntityTail, entAmp, List.isPrefixOf]
  have ha : ('a' : Char) ≠ '&' := by decide
  have hm : ('m' : Char) ≠ '&' := by decide
  have hp : ('p' : Char) ≠ '&' := by decide
  have hs : (';' : Char) ≠ '&' := by decide
  simp [allAmpsRecognized, h1, hx, ha, hm, hp, hs]

theorem allAmpsRecognized_repairAmps (l : List Char) :
    allAmpsRecognized (repairAmps l) = true := by
  induction l with
  | nil => rfl
  | cons c rest ih =>
    by_cases hc : c = '&'
    · subst hc
      by_cases hr : recognizedEntityTail rest = true
      · simp [repairAmps, hr, allAmpsRecognized, recognizedEntityTail_repairAmps hr, ih]
      · have hr' : recognizedEntityTail rest = false := by
          cases hv : recognizedEntityTail rest
          · rfl
          · exact absurd hv hr
        rw [show repairAmps ('&' :: rest)
            = '&' :: 'a' :: 'm' :: 'p' :: ';' :: repairAmps rest by
          simp [repairAmps, hr']]
        exact allAmpsRecognized_amp_cons (repairAmps rest) ih
    · simp [repairAmps, hc, allAmpsRecognized, ih]

theorem repairAmps_eq_self_of_recognized {l : List Char}
    (h : allAmpsRecognized l = true) : repairAmps l = l := by
  induction l with
  | nil => rfl
  | cons c rest ih =>
    simp only [allAmpsRecognized, Bool.and_eq_true] at h
    obtain ⟨h1, h2⟩ := h
    by_cases hc : c = '&'
    · subst hc
      simp at h1
      simp [repairAmps, h1, ih h2]
    · simp [repairAmps, hc, ih h2]

end Slidegen

namespace Slidegen

/-- C1: with MAX_IMAGE_RETRIES=3 and INITIAL_IMAGE_RETRY_DELAY_MS=1000, if every
image-generation call fails, `generateImageWithRetry` makes exactly 4 attempts,
waits 1000ms, 2000ms and 4000ms before attempts 2, 3 and 4, terminates with a
failure outcome carrying the last error's message, and writes no file. -/
theorem C1_retry_exhaustion (call : Nat → Except String String)
    (msgs : Nat → String) (n : Nat) (h : ∀ k, call k = .error (msgs k)) :
    generateImageWithRetry call n =
      ⟨4, [1000, 2000, 4000], ⟨false, none, some (msgs 3)⟩, []⟩ := by
  simp [generateImageWithRetry, retryLoop, h 0, h 1, h 2, h 3,
    MAX_IMAGE_RETRIES, INITIAL_IMAGE_RETRY_DELAY_MS]

/-- Witness for C1 at a concrete always-failing call. -/
theorem C1_retry_exhaustion_witness :
    generateImageWithRetry (fun _ => .error "boom") 7 =
      ⟨4, [1000, 2000, 4000], ⟨false, none, some "boom"⟩, []⟩ :=
  C1_retry_exhaustion (fun _ => .error "boom") (fun _ => "boom") 7 (fun _ => rfl)

/-- C3: the ampersand repair rewrites a `&` to `&amp;` exactly when its tail
does not begin a recognized entity or numeric/hex character reference and
leaves every other character unchanged; in its output every `&` begins a
recognized entity or character reference; and the repair is idempotent. -/
theorem C3_ampersand_repair (l : List Char) :
    (∀ c, repairAmps (c :: l) =
      (if c = '&' then
        (if recognizedEntityTail l then '&' :: repairAmps l
         else '&' :: 'a' :: 'm' :: 'p' :: ';' :: repairAmps l)
       else c :: repairAmps l))
    ∧ allAmpsRecognized (repairAmps l) = true
    ∧ repairAmps (repairAmps l) = repairAmps l :=
  ⟨fun _ => rfl, allAmpsRecognized_repairAmps l,
    repairAmps_eq_self_of_recognized (allAmpsRecognized_repairAmps l)⟩

end Slidegen

namespace Slidegen

/-! ## Helper lemmas about substring search and extraction -/

theorem firstIndexOfSub_isPrefixOf {pat : List Char} :
    ∀ {s : List Char} {i : Nat}, firstIndexOfSub pat s = some i →
      pat.isPrefixOf (s.drop i) = true := by
  intro s
  induction s with
  | nil =>
    intro i h
    rw [firstIndexOfSub] at h
    split at h
    next hp => cases h; simpa using hp
    next hp => cases h
  | cons c t ih =>
    intro i h
    rw [firstIndexOfSub] at h
    split at h
    next hp => cases h; simpa using hp
    next hp =>
      cases hft : firstIndexOfSub pat t with
      | none => rw [hft] at h; cases h
      | some j =>
        rw [hft] at h
        simp only [Option.map_some'] at h
        cases h
        simpa using ih hft

theorem lastIndexOfSub_isPrefixOf {pat : List Char} :
    ∀ {s : List Char} {i : Nat}, lastIndexOfSub pat s = some i →
      pat.isPrefixOf (s.drop i) = true := by
  intro s
  induction s with
  | nil =>
    intro i h
    rw [lastIndexOfSub] at h
    split at h
    next hp => cases h; simpa using hp
    next hp => cases h
  | cons c t ih =>
    intro i h
    rw [lastIndexOfSub] at h
    cases hft : lastIndexOfSub pat t with
    | some j =>
      rw [hft] at h
      simp only at h
      cases h
      simpa using ih hft
    | none =>
      rw [hft] at h
      simp only at h
      split at h
      next hp => cases h; simpa using hp
      next hp => cases h

theorem firstIndexOfSub_chars {pat s : List Char} {i : Nat}
    (h : firstIndexOfSub pat s = some i) : ∀ c ∈ pat, c ∈ s := by
  intro c hc
  obtain ⟨t, ht⟩ :=
    (isPrefixOf_iff_exists_append _ _).mp (firstIndexOfSub_isPrefixOf h)
  have hmem : c ∈ s.drop i := by
    rw [ht]; exact List.mem_append_left t hc
  exact (List.drop_sublist i s).subset hmem

theorem lastIndexOfSub_chars {pat s : List Char} {i : Nat}
    (h : lastIndexOfSub pat s = some i) : ∀ c ∈ pat, c ∈ s := by
  intro c hc
  obtain ⟨t, ht⟩ :=
    (isPrefixOf_iff_exists_append _ _).mp (lastIndexOfSub_isPrefixOf h)
  have hmem : c ∈ s.drop i := by
    rw [ht]; exact List.mem_append_left t hc
  exact (List.drop_sublist i s).subset hmem

theorem firstIndexOfSub_none_of_not_mem {pat s : List Char} {c : Char}
    (hc : c ∈ pat) (hs : c ∉ s) : firstIndexOfSub pat s = none := by
  cases h : firstIndexOfSub pat s with
  | none => rfl
  | some i => exact absurd (firstIndexOfSub_chars h c hc) hs

theorem lastIndexOfSub_none_of_not_mem {pat s : List Char} {c : Char}
    (hc : c ∈ pat) (hs : c ∉ s) : lastIndexOfSub pat s = none := by
  cases h : lastIndexOfSub pat s with
  | none => rfl
  | some i => exact absurd (lastIndexOfSub_chars h c hc) hs

theorem lastIndexOfSub_bound {pat s : List Char} {i : Nat}
    (h : lastIndexOfSub pat s = some i) (hpat : pat ≠ []) :
    i + pat.length ≤ s.length := by
  obtain ⟨t, ht⟩ :=
    (isPrefixOf_iff_exists_append _ _).mp (lastIndexOfSub_isPrefixOf h)
  have hlen : (s.drop i).length = s.length - i := List.length_drop i s
  have h2 : pat.length + t.length = s.length - i := by
    rw [← List.length_append, ← ht, hlen]
  have hpos : 0 < pat.length := List.length_pos.mpr hpat
  omega

theorem substringJS_of_le {s : List Char} {a b : Nat} (hab : a ≤ b)
    (hb : b ≤ s.length) : substringJS s a b = (s.take b).drop a := by
  unfold substringJS
  have h1 : min a s.length = a := by omega
  have h2 : min b s.length = b := by omega
  rw [h1, h2, Nat.max_eq_right hab, Nat.min_eq_left hab]

end Slidegen

namespace Slidegen

/-- C4: when the response contains `<slides>` (first occurrence at `i`) and
`</slides>` (last occurrence at `j`, not before the open tag), extraction
returns exactly the substring from `i` through the end of the close tag; when
both root tags are absent it returns the substring from the first `<` to the
last `>`; and when the response has no angle brackets at all it fails with the
extraction error. -/
theorem C4_extraction (s : List Char) :
    (∀ i j, firstIndexOfSub slidesOpenTag s = some i →
      lastIndexOfSub slidesCloseTag s = some j → i ≤ j →
      extractXml s = .ok ((s.take (j + slidesCloseTag.length)).drop i))
    ∧ (firstIndexOfSub slidesOpenTag s = none →
        lastIndexOfSub slidesCloseTag s = none →
        ∀ a b, firstIndexOfSub ['<'] s = some a →
        lastIndexOfSub ['>'] s = some b → a ≤ b →
        extractXml s = .ok ((s.take (b + 1)).drop a))
    ∧ ('<' ∉ s → '>' ∉ s → extractXml s = .error noXmlMsg) := by
  refine ⟨?_, ?_, ?_⟩
  · intro i j h1 h2 hij
    have hb : j + slidesCloseTag.length ≤ s.length :=
      lastIndexOfSub_bound h2 (by decide)
    have he : extractXml s = .ok (substringJS s i (j + slidesCloseTag.length)) := by
      unfold extractXml
      rw [h1, h2]
    rw [he, substringJS_of_le (by omega) hb]
  · intro h1 h2 a b ha hb hab
    have hblen : b + 1 ≤ s.length := lastIndexOfSub_bound hb (by decide)
    have he : extractXml s = .ok (substringJS s a (b + 1)) := by
      unfold extractXml
      rw [h1, ha, hb]
    rw [he, substringJS_of_le (by omega) hblen]
  · intro hlt hgt
    have h1 : firstIndexOfSub slidesOpenTag s = none :=
      firstIndexOfSub_none_of_not_mem (by decide) hlt
    have ha : firstIndexOfSub ['<'] s = none :=
      firstIndexOfSub_none_of_not_mem (by decide) hlt
    have hb : lastIndexOfSub ['>'] s = none :=
      lastIndexOfSub_none_of_not_mem (by decide) hgt
    unfold extractXml
    rw [h1, ha, hb]

/-- Witness for C4: the three branches at concrete responses. -/
theorem C4_extraction_witness :
    extractXml "ok <slides>A</slides> end".toList = .ok "<slides>A</slides>".toList
    ∧ extractXml "see <b>x</b>!".toList = .ok "<b>x</b>".toList
    ∧ extractXml "no tags here".toList = .error noXmlMsg := by
  refine ⟨?_, ?_, ?_⟩
  · have h := (C4_extraction "ok <slides>A</slides> end".toList).1 3 12
      (by decide) (by decide) (by decide)
    rw [h]; exact congrArg Except.ok (by decide)
  · have h := (C4_extraction "see <b>x</b>!".toList).2.1
      (by decide) (by decide) 4 11 (by decide) (by decide) (by decide)
    rw [h]; exact congrArg Except.ok (by decide)
  · exact (C4_extraction "no tags here".toList).2.2 (by decide) (by decide)

/-- C10: extraction falls back to the first-`<`-to-last-`>` substring whenever
either root tag is missing (not only when both are), provided the response has
a `<` at index `a` and a last `>` at index `b ≥ a`. -/
theorem C10_fallback_single_tag (s : List Char) (a b : Nat)
    (hmiss : firstIndexOfSub slidesOpenTag s = none ∨
      lastIndexOfSub slidesCloseTag s = none)
    (ha : firstIndexOfSub ['<'] s = some a) (hb : lastIndexOfSub ['>'] s = some b)
    (hab : a ≤ b) :
    extractXml s = .ok ((s.take (b + 1)).drop a) := by
  have hblen : b + 1 ≤ s.length := lastIndexOfSub_bound hb (by decide)
  rcases hmiss with hm | hm
  · have he : extractXml s = .ok (substringJS s a (b + 1)) := by
      unfold extractXml
      rw [hm, ha, hb]
    rw [he, substringJS_of_le (by omega) hblen]
  · cases hfo : firstIndexOfSub slidesOpenTag s with
    | none =>
      have he : extractXml s = .ok (substringJS s a (b + 1)) := by
        unfold extractXml
        rw [hfo, ha, hb]
      rw [he, substringJS_of_le (by omega) hblen]
    | some i =>
      have he : extractXml s = .ok (substringJS s a (b + 1)) := by
        unfold extractXml
        rw [hfo, hm, ha, hb]
      rw [he, substringJS_of_le (by omega) hblen]

/-- Witness for C10: `<slides>` present, `</slides>` absent. -/
theorem C10_fallback_single_tag_witness :
    extractXml "x<slides>y".toList = .ok "<slides>".toList := by
  have h := C10_fallback_single_tag "x<slides>y".toList 1 8
    (Or.inr (by decide)) (by decide) (by decide) (by decide)
  rw [h]; exact congrArg Except.ok (by decide)

end Slidegen

namespace Slidegen

/-! ## Helper lemmas about the parse path and the checkpoint load -/

theorem mapWithIndex_length {α β : Type} (f : Nat → α → β) (l : List α) :
    ∀ i, (mapWithIndex f i l).length = l.length := by
  induction l with
  | nil => intro i; rfl
  | cons a rest ih => intro i; simp [mapWithIndex, ih (i + 1)]

theorem mapWithIndex_getElem? {α β : Type} (f : Nat → α → β) (l : List α) :
    ∀ (i j : Nat), (mapWithIndex f i l)[j]? = (l[j]?).map (f (i + j)) := by
  induction l with
  | nil => intro i j; simp [mapWithIndex]
  | cons a rest ih =>
    intro i j
    cases j with
    | zero => simp [mapWithIndex]
    | succ j' =>
      have harith : i + 1 + j' = i + (j' + 1) := by omega
      simp only [mapWithIndex, List.getElem?_cons_succ]
      rw [ih (i + 1) j', harith]

theorem mapWithIndex_slideNumber_lt {l : List RawSlide} :
    ∀ {i : Nat} {r : SlideRecord},
      r ∈ mapWithIndex mkSlideRecord i l → i < r.slideNumber := by
  induction l with
  | nil => intro i r h; simp [mapWithIndex] at h
  | cons a rest ih =>
    intro i r h
    simp only [mapWithIndex, List.mem_cons] at h
    rcases h with rfl | h
    · simp [mkSlideRecord]
    · have := ih h
      omega

theorem mapWithIndex_slideNumber_nodup (l : List RawSlide) :
    ∀ i, ((mapWithIndex mkSlideRecord i l).map (fun r => r.slideNumber)).Nodup := by
  induction l with
  | nil => intro i; simp [mapWithIndex]
  | cons a rest ih =>
    intro i
    simp only [mapWithIndex, List.map_cons, List.nodup_cons]
    refine ⟨?_, ih (i + 1)⟩
    intro hmem
    simp only [List.mem_map] at hmem
    obtain ⟨r, hr, heq⟩ := hmem
    have hlt := mapWithIndex_slideNumber_lt hr
    simp only [mkSlideRecord] at heq
    omega

theorem normalizeStored_null (i : Nat) :
    normalizeStored i .null = .error tyErrMsg := rfl

theorem normalizeStored_obj (i : Nat) (kvs : List (String × JValue)) :
    normalizeStored i (.obj kvs) = .ok
      { source := .obj kvs
        slideNumber := jsOr (jlookup keySlideNumber kvs) (.num (Int.ofNat (i + 1)))
        isValid := jsTruthyOpt (jlookup keyTitle kvs) &&
          jsTruthyOpt (jlookup keyText kvs) &&
          jsTruthyOpt (jlookup keyImagedescription kvs) } := rfl

theorem normalizeStored_ok_of_ne_null (i : Nat) (s : JValue) (h : s ≠ .null) :
    ∃ r, normalizeStored i s = .ok r ∧ r.source = s := by
  cases s with
  | null => exact absurd rfl h
  | bool b => exact ⟨_, rfl, rfl⟩
  | num n => exact ⟨_, rfl, rfl⟩
  | str t => exact ⟨_, rfl, rfl⟩
  | arr l => exact ⟨_, rfl, rfl⟩
  | obj kvs => exact ⟨_, rfl, rfl⟩

theorem normalizeAll_ok_iff (l : List JValue) :
    ∀ i : Nat, (∃ rs, normalizeAll i l = .ok rs) ↔ JValue.null ∉ l := by
  induction l with
  | nil => intro i; simp [normalizeAll]
  | cons s rest ih =>
    intro i
    constructor
    · rintro ⟨rs, hrs⟩
      rw [normalizeAll] at hrs
      cases hns : normalizeStored i s with
      | error e => rw [hns] at hrs; simp at hrs
      | ok r =>
        rw [hns] at hrs
        cases hna : normalizeAll (i + 1) rest with
        | error e => rw [hna] at hrs; simp at hrs
        | ok rs' =>
          intro hmem
          simp only [List.mem_cons] at hmem
          rcases hmem with rfl | hmem
          · rw [normalizeStored_null] at hns; cases hns
          · exact absurd hmem ((ih (i + 1)).mp ⟨rs', hna⟩)
    · intro hmem
      have hs : s ≠ .null := fun e => hmem (by simp [e])
      have hrest : JValue.null ∉ rest := fun hm => hmem (by simp [hm])
      obtain ⟨r, hr, _⟩ := normalizeStored_ok_of_ne_null i s hs
      obtain ⟨rs, hrs⟩ := (ih (i + 1)).mpr hrest
      refine ⟨r :: rs, ?_⟩
      rw [normalizeAll, hr, hrs]

theorem normalizeAll_length (l : List JValue) :
    ∀ (i : Nat) (rs : List LoadedSlide),
      normalizeAll i l = .ok rs → rs.length = l.length := by
  induction l with
  | nil =>
    intro i rs h
    rw [normalizeAll] at h
    cases h
    rfl
  | cons s rest ih =>
    intro i rs h
    rw [normalizeAll] at h
    cases hns : normalizeStored i s with
    | error e => rw [hns] at h; cases h
    | ok r =>
      rw [hns] at h
      cases hna : normalizeAll (i + 1) rest with
      | error e => rw [hna] at h; cases h
      | ok rs' =>
        rw [hna] at h
        cases h
        simp [ih (i + 1) rs' hna]

theorem runImagePhase_fst {α : Type} (valid : α → Bool) (gen : α → ImageOutcome)
    (slides : List α) : (runImagePhase valid gen slides).1 = 0 := by
  rw [runImagePhase]
  split <;> rfl

end Slidegen

namespace Slidegen

/-- C2 counterexample: a checkpoint record whose title is whitespace-only is
marked valid by the load path (which applies no trimming), while the claim's
predicate — all fields non-empty after trimming — is false for it. -/
theorem C2_counterexample :
    ∃ r, normalizeStored 0 (.obj [(keyTitle, .str " "), (keyText, .str "x"),
        (keyImagedescription, .str "y")]) = .ok r ∧ r.isValid = true
      ∧ specValidTrim (some " ") (some "x") (some "y") = false := by
  refine ⟨_, normalizeStored_obj 0 _, ?_, ?_⟩
  · rfl
  · decide

/-- C2 amended: freshly parsed records satisfy the trim-based validity
predicate exactly (xml2js trims values before the truthiness check); loaded
records are valid iff the stored `title`, `text` and lowercase-key
`imagedescription` values are truthy as stored (no trimming, so a
whitespace-only field counts as non-empty); in both paths every record, valid
or invalid, is retained at its position. -/
theorem C2_validity_amended :
    (∀ (i : Nat) (s : RawSlide),
      (mkSlideRecord i (xmlTrimSlide s)).isValid
        = specValidTrim s.title s.text s.imagedescription)
    ∧ (∀ (i : Nat) (kvs : List (String × JValue)),
        ∃ r, normalizeStored i (.obj kvs) = .ok r ∧
          r.isValid = (jsTruthyOpt (jlookup keyTitle kvs) &&
            jsTruthyOpt (jlookup keyText kvs) &&
            jsTruthyOpt (jlookup keyImagedescription kvs)))
    ∧ (∀ raw : List RawSlide, (generateSlidesDeck raw).length = raw.length)
    ∧ (∀ (raw : List RawSlide) (j : Nat),
        (generateSlidesDeck raw)[j]?
          = (raw[j]?).map (fun s => mkSlideRecord j (xmlTrimSlide s)))
    ∧ (∀ (l : List JValue) (i : Nat) (rs : List LoadedSlide),
        normalizeAll i l = .ok rs → rs.length = l.length) := by
  refine ⟨?_, ?_, ?_, ?_, ?_⟩
  · intro i s; rfl
  · intro i kvs; exact ⟨_, normalizeStored_obj i kvs, rfl⟩
  · intro raw
    simp [generateSlidesDeck, buildDeck, mapWithIndex_length]
  · intro raw j
    rw [show generateSlidesDeck raw
        = mapWithIndex mkSlideRecord 0 (raw.map xmlTrimSlide) from rfl,
      mapWithIndex_getElem? mkSlideRecord (raw.map xmlTrimSlide) 0 j,
      List.getElem?_map, Option.map_map, Nat.zero_add]
    rfl
  · exact fun l i rs h => normalizeAll_length l i rs h

/-- Witness for C2 amended, discharging the load-length hypothesis at a
concrete one-element checkpoint. -/
theorem C2_validity_amended_witness :
    ([⟨JValue.num 1, JValue.num 1, false⟩] : List LoadedSlide).length
      = [JValue.num 1].length :=
  C2_validity_amended.2.2.2.2 [JValue.num 1] 0
    [⟨JValue.num 1, JValue.num 1, false⟩] rfl

/-- C5 counterexample: the load path keeps a stored truthy `slideNumber`
instead of overriding it with the 1-based position: the record at position 1
keeps slideNumber 5. -/
theorem C5_counterexample :
    ∃ r, normalizeStored 0 (.obj [(keySlideNumber, .num 5), (keyTitle, .str "a"),
        (keyText, .str "b"), (keyImagedescription, .str "c")]) = .ok r
      ∧ r.slideNumber = .num 5
      ∧ (JValue.num 5 = JValue.num (Int.ofNat (0 + 1)) → False) := by
  refine ⟨_, normalizeStored_obj 0 _, rfl, ?_⟩
  intro h
  injection h with h'
  exact absurd h' (by decide)

/-- C5 amended: freshly parsed decks assign `slideNumber` by 1-based position,
overriding any source value, and their `slide_<n>_image.png` filenames are
pairwise distinct; loaded decks keep a truthy stored `slideNumber` and fall
back to the 1-based position only when the stored value is absent or falsy. -/
theorem C5_slide_numbering_amended :
    (∀ (raw : List RawSlide) (j : Nat) (r : SlideRecord),
      (generateSlidesDeck raw)[j]? = some r → r.slideNumber = j + 1)
    ∧ (∀ raw : List RawSlide,
        ((generateSlidesDeck raw).map (fun r => imagePath r.slideNumber)).Nodup)
    ∧ (∀ (i : Nat) (kvs : List (String × JValue)) (v : JValue),
        jlookup keySlideNumber kvs = some v → jsTruthy v = true →
        ∃ r, normalizeStored i (.obj kvs) = .ok r ∧ r.slideNumber = v)
    ∧ (∀ (i : Nat) (kvs : List (String × JValue)),
        jsTruthyOpt (jlookup keySlideNumber kvs) = false →
        ∃ r, normalizeStored i (.obj kvs) = .ok r ∧
          r.slideNumber = .num (Int.ofNat (i + 1))) := by
  refine ⟨?_, ?_, ?_, ?_⟩
  · intro raw j r h
    have hg : (generateSlidesDeck raw)[j]?
        = (raw[j]?).map (mkSlideRecord j ∘ xmlTrimSlide) := by
      rw [show generateSlidesDeck raw
          = mapWithIndex mkSlideRecord 0 (raw.map xmlTrimSlide) from rfl,
        mapWithIndex_getElem? mkSlideRecord (raw.map xmlTrimSlide) 0 j,
        List.getElem?_map, Option.map_map, Nat.zero_add]
    rw [hg] at h
    cases hr : raw[j]? with
    | none => rw [hr] at h; cases h
    | some s =>
      rw [hr] at h
      simp only [Option.map_some'] at h
      cases h
      rfl
  · intro raw
    have h1 : ((mapWithIndex mkSlideRecord 0 (raw.map xmlTrimSlide)).map
        (fun r => r.slideNumber)).Nodup :=
      mapWithIndex_slideNumber_nodup (raw.map xmlTrimSlide) 0
    have heq : (generateSlidesDeck raw).map (fun r => imagePath r.slideNumber)
        = ((mapWithIndex mkSlideRecord 0 (raw.map xmlTrimSlide)).map
            (fun r => r.slideNumber)).map imagePath := by
      simp [generateSlidesDeck, buildDeck, List.map_map, Function.comp]
    rw [heq]
    exact List.Nodup.map imagePath_injective h1
  · intro i kvs v hv htr
    refine ⟨_, normalizeStored_obj i kvs, ?_⟩
    simp [hv, jsOr, htr]
  · intro i kvs hfalse
    refine ⟨_, normalizeStored_obj i kvs, ?_⟩
    cases hv : jlookup keySlideNumber kvs with
    | none => simp [jsOr, hv]
    | some v =>
      rw [hv] at hfalse
      simp only [jsTruthyOpt] at hfalse
      simp [jsOr, hv, hfalse]

/-- Witness for C5 amended: a one-slide parsed deck gets slideNumber 1; a
loaded record with stored slideNumber 7 keeps it. -/
theorem C5_slide_numbering_amended_witness :
    (mkSlideRecord 0 (xmlTrimSlide ⟨some "t", some "x", some "d", some "9"⟩)).slideNumber
      = 0 + 1
    ∧ ∃ r, normalizeStored 1 (.obj [(keySlideNumber, .num 7)]) = .ok r
        ∧ r.slideNumber = .num 7 :=
  ⟨C5_slide_numbering_amended.1 [⟨some "t", some "x", some "d", some "9"⟩] 0 _ rfl,
   C5_slide_numbering_amended.2.2.1 1 [(keySlideNumber, .num 7)] (.num 7) rfl
     (by decide)⟩

end Slidegen

namespace Slidegen

/-- C6: the orchestrator dispatches exactly one image-generation invocation
per valid record and none for invalid records (the dispatch list is the
filter of the deck by validity, mapped through the generator); the j-th
outcome is the generator applied to the j-th valid slide alone; and the
summary reports the number of valid slides, the number of success outcomes,
and their difference, which sum back to the total. -/
theorem C6_batch_dispatch {α : Type} (valid : α → Bool)
    (gen : α → ImageOutcome) (deck : List α) :
    (dispatchBatch valid gen deck).length = (validSlidesOf valid deck).length
    ∧ (∀ j : Nat, (dispatchBatch valid gen deck)[j]?
        = ((validSlidesOf valid deck)[j]?).map gen)
    ∧ (validSlidesOf valid deck).all valid = true
    ∧ validSlidesOf valid deck = deck.filter valid
    ∧ summarize valid gen deck =
        ⟨(validSlidesOf valid deck).length,
         ((dispatchBatch valid gen deck).filter (fun r => r.success)).length,
         (validSlidesOf valid deck).length
           - ((dispatchBatch valid gen deck).filter (fun r => r.success)).length⟩
    ∧ (summarize valid gen deck).succeeded + (summarize valid gen deck).failed
        = (summarize valid gen deck).totalValid := by
  refine ⟨by simp [dispatchBatch], ?_, ?_, rfl, rfl, ?_⟩
  · intro j
    simp [dispatchBatch]
  · simp only [validSlidesOf, List.all_eq_true]
    intro s hs
    exact (List.mem_filter.mp hs).2
  · have hk : ((dispatchBatch valid gen deck).filter (fun r => r.success)).length
        ≤ (validSlidesOf valid deck).length := by
      calc ((dispatchBatch valid gen deck).filter (fun r => r.success)).length
          ≤ (dispatchBatch valid gen deck).length := List.length_filter_le _ _
        _ = (validSlidesOf valid deck).length := by simp [dispatchBatch]
    simp only [summarize]
    omega

/-- C7 counterexample: a non-empty checkpoint whose single element is not
slide-shaped (the number 42) loads successfully (the element is merely marked
invalid), contradicting the claim that loading fails iff the content is not a
non-empty sequence of slide-shaped records. -/
theorem C7_counterexample :
    loadCheckpoint (some (.arr [.num 42]))
      = .ok [⟨.num 42, .num (Int.ofNat 1), false⟩]
    ∧ isSlideShaped (.num 42) = false :=
  ⟨rfl, rfl⟩

/-- C7 amended: loading fails fatally exactly when the stored content is not
parseable JSON, not an array, an empty array, or has a `null` element (whose
property access throws); any non-empty array of non-null elements — slide
shaped or not — loads successfully. -/
theorem C7_load_amended (content : Option JValue) :
    (∃ rs, loadCheckpoint content = .ok rs) ↔
      (∃ x xs, content = some (.arr (x :: xs)) ∧ JValue.null ∉ x :: xs) := by
  constructor
  · rintro ⟨rs, hrs⟩
    cases content with
    | none => simp [loadCheckpoint] at hrs
    | some v =>
      cases v with
      | arr l =>
        cases l with
        | nil => simp [loadCheckpoint] at hrs
        | cons x xs =>
          refine ⟨x, xs, rfl, ?_⟩
          exact (normalizeAll_ok_iff (x :: xs) 0).mp ⟨rs, hrs⟩
      | null => simp [loadCheckpoint] at hrs
      | bool b => simp [loadCheckpoint] at hrs
      | num n => simp [loadCheckpoint] at hrs
      | str t => simp [loadCheckpoint] at hrs
      | obj kvs => simp [loadCheckpoint] at hrs
  · rintro ⟨x, xs, rfl, hnull⟩
    obtain ⟨rs, hrs⟩ := (normalizeAll_ok_iff (x :: xs) 0).mpr hnull
    exact ⟨rs, hrs⟩

/-- C9: on checkpoint load the validity check reads the image-description
field under the all-lowercase key `imagedescription` (the key the lowercasing
XML parse produces); a record storing the field only under the camelCase key
`imageDescription` is marked invalid even when that value is non-empty. -/
theorem C9_lowercase_key_on_load (i : Nat) (kvs : List (String × JValue))
    (hlow : jlookup keyImagedescription kvs = none)
    (_hcamel : jsTruthyOpt (jlookup "imageDescription" kvs) = true) :
    ∃ r, normalizeStored i (.obj kvs) = .ok r ∧ r.isValid = false := by
  refine ⟨_, normalizeStored_obj i kvs, ?_⟩
  simp [hlow, jsTruthyOpt]

/-- Witness for C9: a loaded record with non-empty camelCase
`imageDescription` only is marked invalid. -/
theorem C9_lowercase_key_on_load_witness :
    ∃ r, normalizeStored 0 (.obj [(keyTitle, .str "a"), (keyText, .str "b"),
      ("imageDescription", .str "c")]) = .ok r ∧ r.isValid = false :=
  C9_lowercase_key_on_load 0
    [(keyTitle, .str "a"), (keyText, .str "b"), ("imageDescription", .str "c")]
    rfl (by decide)

end Slidegen

namespace Slidegen

/-- C8: the exit code is 0 whenever the run completes — a checkpoint loads, or
fresh generation yields a non-empty deck — regardless of per-slide image
outcomes, and also when zero valid slides remain (then with no image work);
the exit code is 1 on a corrupt checkpoint, a missing research file, and
failed or empty text generation. -/
theorem C8_exit_codes (env : Env) :
    (∀ slides, env.slidesJsonExists = true →
      loadCheckpoint env.slidesJsonContent = .ok slides → (mainRun env).1 = 0)
    ∧ (∀ e, env.slidesJsonExists = true →
        loadCheckpoint env.slidesJsonContent = .error e → mainRun env = (1, []))
    ∧ (env.slidesJsonExists = false → env.researchExists = false →
        mainRun env = (1, []))
    ∧ (∀ e, env.slidesJsonExists = false → env.researchExists = true →
        env.textGen = .error e → mainRun env = (1, []))
    ∧ (∀ slides, env.slidesJsonExists = false → env.researchExists = true →
        env.textGen = .ok slides → slides = [] → mainRun env = (1, []))
    ∧ (∀ slides, env.slidesJsonExists = false → env.researchExists = true →
        env.textGen = .ok slides → slides ≠ [] → (mainRun env).1 = 0)
    ∧ (∀ slides, env.slidesJsonExists = true →
        loadCheckpoint env.slidesJsonContent = .ok slides →
        validSlidesOf (fun s => s.isValid) slides = [] → mainRun env = (0, [])) := by
  refine ⟨?_, ?_, ?_, ?_, ?_, ?_, ?_⟩
  · intro slides he hl
    simp only [mainRun, he, if_true, hl]
    exact runImagePhase_fst _ _ _
  · intro e he hl
    simp only [mainRun, he, if_true, hl]
  · intro he hr
    simp [mainRun, he, hr]
  · intro e he hr hg
    simp [mainRun, he, hr, hg]
  · intro slides he hr hg hnil
    subst hnil
    simp [mainRun, he, hr, hg]
  · intro slides he hr hg hne
    have hemp : slides.isEmpty = false := by
      cases slides with
      | nil => exact absurd rfl hne
      | cons a t => rfl
    simp only [mainRun, he, hr, if_false, if_true, hg, hemp]
    exact runImagePhase_fst _ _ _
  · intro slides he hl hv
    simp only [mainRun, he, if_true, hl, runImagePhase, hv, List.isEmpty_nil,
      if_true]

/-- Witness for C8: a run resumed from a valid one-slide checkpoint where the
only image generation fails still exits 0. -/
theorem C8_exit_codes_witness :
    (mainRun
      { slidesJsonExists := true
        slidesJsonContent := some (.arr [.obj [(keyTitle, .str "t"),
          (keyText, .str "x"), (keyImagedescription, .str "d")]])
        researchExists := false
        textGen := .error "unused"
        genLoaded := fun _ => ⟨false, none, some "fail"⟩
        genParsed := fun _ => ⟨false, none, some "fail"⟩ }).1 = 0 :=
  (C8_exit_codes _).1
    [⟨.obj [(keyTitle, .str "t"), (keyText, .str "x"),
      (keyImagedescription, .str "d")], .num (Int.ofNat 1), true⟩]
    rfl rfl

end Slidegen
